import Mathlib

/-!
Verification of the selection-based Markdown transformation engine
(`MarkdownFormatter` in the repository's content script).

The engine operates on a textarea: a text buffer (`value`) together with a
selection range (`selectionStart`, `selectionEnd`).  Every operation is a
pure function from that state to a new state; we embed the buffer as a
`List Char` and each operation as a Lean function mirroring the JavaScript
source line by line.  JavaScript string primitives (`substring`, `slice`
with a negative end, `indexOf`, `lastIndexOf`, `trim`, `split`, `repeat`,
`|0` coercion) are given small faithful models below.
-/

/-- Buffers and selected text are modelled as lists of characters. -/
abbrev Str := List Char

/-- Converts a Lean string literal to the character-list model. -/
def chars (s : String) : Str := s.data

/-- JavaScript whitespace test restricted to the characters that occur in
this code base (space, tab, newline, carriage return). -/
def isWs (c : Char) : Bool := c = ' ' || c = '\t' || c = '\n' || c = '\r'

/-- Model of `String.prototype.trimStart`. -/
def trimStart (s : Str) : Str := s.dropWhile isWs

/-- Model of trimming trailing whitespace (used to build `trim`). -/
def trimEnd (s : Str) : Str := (s.reverse.dropWhile isWs).reverse

/-- Model of `String.prototype.trim`. -/
def trimStr (s : Str) : Str := trimEnd (trimStart s)

/-- Model of `String.prototype.indexOf` for a single character:
the index of the first occurrence, or `-1` when absent. -/
def jsIndexOf (s : Str) (c : Char) : Int :=
  match s.findIdx? (· = c) with
  | some i => (i : Int)
  | none => -1

/-- Model of `String.prototype.lastIndexOf` for a single character:
the index of the last occurrence, or `-1` when absent. -/
def jsLastIndexOf (s : Str) (c : Char) : Int :=
  match s.reverse.findIdx? (· = c) with
  | some i => (s.length : Int) - 1 - (i : Int)
  | none => -1

/-- Model of `s.slice(0, -n)` for a natural `n`: JavaScript treats `-0` as
`0`, so `n = 0` yields the empty string; otherwise the last `n` characters
are dropped. -/
def jsSliceNegEnd (s : Str) (n : Nat) : Str :=
  if n = 0 then [] else s.take (s.length - n)

/-- Model of JavaScript's `x | 0` (ToInt32) on an integral value. -/
def toInt32 (n : Int) : Int := (n + 2 ^ 31) % 2 ^ 32 - 2 ^ 31

/-- Model of JavaScript's `x || d` for an integral `x`: `0` is falsy. -/
def jsOrInt (x d : Int) : Int := if x = 0 then d else x

/-- Decimal digit character (`48 + d` is the ASCII code of digit `d`). -/
def digitChar (d : Nat) : Char := Char.ofNat (48 + d)

/-- Fuel-driven decimal rendering of a natural number, most significant
digit first. -/
def natStrAux : Nat → Nat → Str
  | 0, _ => []
  | fuel + 1, n =>
    if n < 10 then [digitChar n]
    else natStrAux fuel (n / 10) ++ [digitChar (n % 10)]

/-- Model of JavaScript number-to-string interpolation for naturals. -/
def natStr (n : Nat) : Str := natStrAux (n + 1) n

/-- The textarea state the engine reads and writes: the buffer plus the
selection range `[selectionStart, selectionEnd)`. -/
structure TA where
  value : Str
  selectionStart : Nat
  selectionEnd : Nat
deriving Repr, DecidableEq

/-- Well-formed selection: `0 ≤ start ≤ end ≤ length` (the DOM guarantees
this for a live textarea). -/
def boundsOk (ta : TA) : Prop :=
  ta.selectionStart ≤ ta.selectionEnd ∧ ta.selectionEnd ≤ ta.value.length

instance (ta : TA) : Decidable (boundsOk ta) := by
  unfold boundsOk; infer_instance

/-- The currently selected text, `value.substring(start, end)`. -/
def selText (ta : TA) : Str :=
  (ta.value.take ta.selectionEnd).drop ta.selectionStart

/-- `replaceSelection(textarea, replacement, selectReplacement)`: splice
`replacement` over the selection; keep it selected or place the caret
after it. -/
def replaceSelection (ta : TA) (replacement : Str) (selectReplacement : Bool) : TA :=
  let start := ta.selectionStart
  let e := ta.selectionEnd
  let beforeText := ta.value.take start
  let afterText := ta.value.drop e
  let newValue := beforeText ++ replacement ++ afterText
  if selectReplacement then
    { value := newValue
      selectionStart := start
      selectionEnd := start + replacement.length }
  else
    { value := newValue
      selectionStart := start + replacement.length
      selectionEnd := start + replacement.length }

/-- Start of the line block intersecting the selection:
`beforeCursor.lastIndexOf('\n') + 1` (`0` when there is no newline before
the selection). -/
def lineStartOf (ta : TA) : Nat :=
  (jsLastIndexOf (ta.value.take ta.selectionStart) '\n' + 1).toNat

/-- End of the line block intersecting the selection:
`end + afterCursor.indexOf('\n')`, with the `-1` sentinel of `indexOf`
(detected via `lineEndPos === end - 1`) mapped to the buffer length. -/
def lineEndOf (ta : TA) : Nat :=
  let e := ta.selectionEnd
  let afterCursor := ta.value.drop e
  let lineEndPos : Int := (e : Int) + jsIndexOf afterCursor '\n'
  if lineEndPos = (e : Int) - 1 then ta.value.length else lineEndPos.toNat

/-- The lines of the full line block around the selection,
`fullText.substring(lineStart, lineEnd).split('\n')`. -/
def blockLines (ta : TA) : List Str :=
  ((ta.value.take (lineEndOf ta)).drop (lineStartOf ta)).splitOn '\n'

/-- `prefixLines(textarea, prefix, toggleable)`: prepend `p` to every
non-blank line of the line block, or — when `toggleable` and every line's
trimmed text starts with `p.trim()` — strip `p.trim()` from each line
after its leading whitespace (re-emitted as spaces, `' '.repeat(spaces)`). -/
def prefixLines (ta : TA) (p : Str) (toggleable : Bool) : TA :=
  let lineStart := lineStartOf ta
  let lineEnd := lineEndOf ta
  let fullText := ta.value
  let lines := blockLines ta
  let allPrefixed := toggleable &&
    lines.all (fun line => (trimStr p).isPrefixOf (trimStr line))
  let newLines :=
    if allPrefixed then
      lines.map (fun line =>
        let trimmed := trimStart line
        if (trimStr p).isPrefixOf trimmed then
          let spaces := line.length - trimmed.length
          List.replicate spaces ' ' ++ trimmed.drop (trimStr p).length
        else line)
    else
      lines.map (fun line => if trimStr line = [] then line else p ++ line)
  let newSelection := List.intercalate ['\n'] newLines
  let newText := fullText.take lineStart ++ newSelection ++ fullText.drop lineEnd
  { value := newText
    selectionStart := lineStart
    selectionEnd := lineStart + newSelection.length }

/-- Test of `/^\d+\.\s/` against an (already trimmed) line: one or more
digits, a literal dot, then a whitespace character. -/
def testNumbered (l : Str) : Bool :=
  let ds := l.takeWhile Char.isDigit
  let rest := l.dropWhile Char.isDigit
  ds ≠ [] &&
    match rest with
    | '.' :: w :: _ => isWs w
    | _ => false

/-- Model of `line.replace(/^\s*\d+\.\s/, '')`: drop leading whitespace,
one or more digits, a dot and a single whitespace character when the line
matches; otherwise leave the line unchanged. -/
def stripNumbered (l : Str) : Str :=
  let r1 := l.dropWhile isWs
  let ds := r1.takeWhile Char.isDigit
  let r2 := r1.dropWhile Char.isDigit
  if ds ≠ [] then
    match r2 with
    | '.' :: w :: rest => if isWs w then rest else l
    | _ => l
  else l

/-- Sequential numbering of the block's lines: blank lines are kept
verbatim without consuming a number, other lines become
`"{counter}. " + line`. -/
def numberLines : Nat → List Str → List Str
  | _, [] => []
  | counter, l :: ls =>
    if trimStr l = [] then l :: numberLines counter ls
    else (natStr counter ++ chars ". " ++ l) :: numberLines (counter + 1) ls

/-- `insertNumberedList(textarea)`: insert the `"1. item"` template at a
caret, strip `digits. ` tokens when every line of the block is already
numbered, otherwise number every non-blank line of the block starting
at 1. -/
def insertNumberedList (ta : TA) : TA :=
  let start := ta.selectionStart
  let e := ta.selectionEnd
  let fullText := ta.value
  let beforeCursor := fullText.take start
  let selection := (fullText.take e).drop start
  let afterCursor := fullText.drop e
  if selection = [] then
    { value := beforeCursor ++ chars "1. item" ++ afterCursor
      selectionStart := start + 3
      selectionEnd := start + 7 }
  else
    let lineStart := lineStartOf ta
    let lineEnd := lineEndOf ta
    let lines := blockLines ta
    let alreadyNumbered := lines.all (fun line => testNumbered (trimStr line))
    let newLines :=
      if alreadyNumbered then lines.map stripNumbered
      else numberLines 1 lines
    let newSelection := List.intercalate ['\n'] newLines
    let newText := fullText.take lineStart ++ newSelection ++ fullText.drop lineEnd
    { value := newText
      selectionStart := lineStart
      selectionEnd := lineStart + newSelection.length }

/-- Index of the first occurrence of `pat` as a contiguous sublist, if
any (the search a lazy regex body performs). -/
def findSubIdx (pat : Str) : Str → Option Nat
  | [] => if pat.isPrefixOf ([] : Str) then some 0 else none
  | s@(_ :: rest) =>
    if pat.isPrefixOf s then some 0 else (findSubIdx pat rest).map (· + 1)

/-- Model of `String.prototype.split` on a (non-empty) literal separator,
driven by fuel. -/
def splitOnSubAux (sep : Str) : Nat → Str → List Str
  | 0, s => [s]
  | fuel + 1, s =>
    match findSubIdx sep s with
    | none => [s]
    | some i => s.take i :: splitOnSubAux sep fuel (s.drop (i + sep.length))

/-- `text.split(sep)` for a non-empty literal separator `sep`. -/
def splitOnSub (sep s : Str) : List Str := splitOnSubAux sep (s.length + 1) s

/-- Model of a global (`/g`) regex replace.  `tryFn s` reports a match at
the head of `s` as `(consumed length, replacement)`; the scanner finds
matches leftmost-first and resumes after each match, exactly as
`String.prototype.replace` does for the non-empty matches used here. -/
def replaceScan (tryFn : Str → Option (Nat × Str)) : Nat → Str → Str
  | 0, s => s
  | fuel + 1, s =>
    match s with
    | [] => []
    | c :: rest =>
      match tryFn s with
      | some (n, rep) => rep ++ replaceScan tryFn fuel (s.drop n)
      | none => c :: replaceScan tryFn fuel rest

/-- Global replace over a whole string (fuel covers every position since
each match consumes at least one character). -/
def replaceAll (tryFn : Str → Option (Nat × Str)) (s : Str) : Str :=
  replaceScan tryFn (s.length + 1) s

/-- Model of a global multiline (`/gm`) replace of a `^`-anchored
pattern: matches may start only at position 0 or right after a `'\n'` of
the original string, so the scanner tracks whether it stands at a line
start (after a match, via the last consumed character). -/
def replaceScanAnchored (tryFn : Str → Option (Nat × Str)) :
    Nat → Bool → Str → Str
  | 0, _, s => s
  | fuel + 1, atStart, s =>
    match s with
    | [] => []
    | c :: rest =>
      if atStart then
        match tryFn s with
        | some (n, rep) =>
          rep ++ replaceScanAnchored tryFn fuel
            ((s.take n).getLastD 'x' == '\n') (s.drop n)
        | none => c :: replaceScanAnchored tryFn fuel (c == '\n') rest
      else c :: replaceScanAnchored tryFn fuel (c == '\n') rest

/-- Global `^`-anchored multiline replace over a whole string. -/
def replaceAllAnchored (tryFn : Str → Option (Nat × Str)) (s : Str) : Str :=
  replaceScanAnchored tryFn (s.length + 1) true s

/-- Head match of ``/```[^\n]*\n([\s\S]*?)\n```/``: opening fence, an
info string up to the newline, then the lazy body ended by the earliest
`"\n```"`; replaced by the body (`$1`). -/
def tryFence (s : Str) : Option (Nat × Str) :=
  if (chars "```").isPrefixOf s then
    let afterTicks := s.drop 3
    let info := afterTicks.takeWhile (· ≠ '\n')
    match afterTicks.drop info.length with
    | '\n' :: body =>
      match findSubIdx (chars "\n```") body with
      | some j => some (3 + info.length + 1 + j + 4, body.take j)
      | none => none
    | _ => none
  else none

/-- Head match of ``/`([^`]+)`/``: a backtick, a non-empty run of
non-backtick characters, a backtick; replaced by the run. -/
def tryInlineCode (s : Str) : Option (Nat × Str) :=
  match s with
  | '`' :: rest =>
    let run := rest.takeWhile (· ≠ '`')
    if !run.isEmpty then
      match rest.drop run.length with
      | '`' :: _ => some (run.length + 2, run)
      | _ => none
    else none
  | _ => none

/-- Head match of `/\*\*([^*]+)\*\*/`: replaced by the inner run. -/
def tryBold (s : Str) : Option (Nat × Str) :=
  if (chars "**").isPrefixOf s then
    let rest := s.drop 2
    let run := rest.takeWhile (· ≠ '*')
    if !run.isEmpty && (chars "**").isPrefixOf (rest.drop run.length) then
      some (run.length + 4, run)
    else none
  else none

/-- Head match of `/\*([^*\n]+)\*/`: replaced by the inner run. -/
def tryItalic (s : Str) : Option (Nat × Str) :=
  match s with
  | '*' :: rest =>
    let run := rest.takeWhile (fun c => c ≠ '*' && c ≠ '\n')
    if !run.isEmpty then
      match rest.drop run.length with
      | '*' :: _ => some (run.length + 2, run)
      | _ => none
    else none
  | _ => none

/-- Head match of `/~~([^~]+)~~/`: replaced by the inner run. -/
def tryStrike (s : Str) : Option (Nat × Str) :=
  if (chars "~~").isPrefixOf s then
    let rest := s.drop 2
    let run := rest.takeWhile (· ≠ '~')
    if !run.isEmpty && (chars "~~").isPrefixOf (rest.drop run.length) then
      some (run.length + 4, run)
    else none
  else none

/-- Head match of `/>!([\s\S]*?)!</` (spoiler): lazy body ended by the
earliest `"!<"`; replaced by the body. -/
def trySpoiler (s : Str) : Option (Nat × Str) :=
  if (chars ">!").isPrefixOf s then
    match findSubIdx (chars "!<") (s.drop 2) with
    | some j => some (2 + j + 2, (s.drop 2).take j)
    | none => none
  else none

/-- Head match of `/\[([^\]]+)\]\(([^)]+)\)/` (link syntax): replaced by
the link text (`$1`). -/
def tryLink (s : Str) : Option (Nat × Str) :=
  match s with
  | '[' :: rest =>
    let t := rest.takeWhile (· ≠ ']')
    if !t.isEmpty then
      match rest.drop t.length with
      | ']' :: '(' :: r3 =>
        let u := r3.takeWhile (· ≠ ')')
        if !u.isEmpty then
          match r3.drop u.length with
          | ')' :: _ => some (1 + t.length + 2 + u.length + 1, t)
          | _ => none
        else none
      | _ => none
    else none
  | _ => none

/-- Line-start match of `/^(\s*)#{1,6}\s+/m`: leading whitespace (kept,
`$1`), one to six hashes and at least one whitespace character
(removed). -/
def tryHeadingMark (s : Str) : Option (Nat × Str) :=
  let ws := s.takeWhile isWs
  let r := s.drop ws.length
  let hs := r.takeWhile (· = '#')
  let ws2 := (r.drop hs.length).takeWhile isWs
  if 1 ≤ hs.length && hs.length ≤ 6 && !ws2.isEmpty then
    some (ws.length + hs.length + ws2.length, ws)
  else none

/-- Line-start match of `/^(\s*)>\s+/m`: leading whitespace kept, the
quote marker and its trailing whitespace removed. -/
def tryQuoteMark (s : Str) : Option (Nat × Str) :=
  let ws := s.takeWhile isWs
  match s.drop ws.length with
  | '>' :: r2 =>
    let ws2 := r2.takeWhile isWs
    if !ws2.isEmpty then some (ws.length + 1 + ws2.length, ws) else none
  | _ => none

/-- Line-start match of `/^(\s*)-\s+/m`: leading whitespace kept, the
bullet marker and its trailing whitespace removed. -/
def tryBulletMark (s : Str) : Option (Nat × Str) :=
  let ws := s.takeWhile isWs
  match s.drop ws.length with
  | '-' :: r2 =>
    let ws2 := r2.takeWhile isWs
    if !ws2.isEmpty then some (ws.length + 1 + ws2.length, ws) else none
  | _ => none

/-- Line-start match of `/^(\s*)\d+\.\s+/m`: leading whitespace kept, the
number token and its trailing whitespace removed. -/
def tryNumMark (s : Str) : Option (Nat × Str) :=
  let ws := s.takeWhile isWs
  let r := s.drop ws.length
  let ds := r.takeWhile Char.isDigit
  if !ds.isEmpty then
    match r.drop ds.length with
    | '.' :: r2 =>
      let ws2 := r2.takeWhile isWs
      if !ws2.isEmpty then some (ws.length + ds.length + 1 + ws2.length, ws)
      else none
    | _ => none
  else none

/-- The ordered removal passes of `clearFormatting`, applied to the
selected text: code fences, inline code, bold, italic, strikethrough,
spoiler, link syntax, then the line-based heading/quote/bullet/number
markers. -/
def clearPasses (selected : Str) : Str :=
  let out := selected
  let out := replaceAll tryFence out
  let out := replaceAll tryInlineCode out
  let out := replaceAll tryBold out
  let out := replaceAll tryItalic out
  let out := replaceAll tryStrike out
  let out := replaceAll trySpoiler out
  let out := replaceAll tryLink out
  let out := replaceAllAnchored tryHeadingMark out
  let out := replaceAllAnchored tryQuoteMark out
  let out := replaceAllAnchored tryBulletMark out
  let out := replaceAllAnchored tryNumMark out
  out

/-- `clearFormatting(textarea)`: no-op on an empty selection, otherwise
replace the selection with the cleared text and keep it selected. -/
def clearFormatting (ta : TA) : TA :=
  let selected := (ta.value.take ta.selectionEnd).drop ta.selectionStart
  if selected = [] then ta
  else replaceSelection ta (clearPasses selected) true

/-- `insertSnippet(textarea, template)`: no-op on an empty template,
otherwise substitute the selected text for every `"\x7bselection\x7d"`
token and replace the selection with the result. -/
def insertSnippet (ta : TA) (template : Str) : TA :=
  let selected := (ta.value.take ta.selectionEnd).drop ta.selectionStart
  if template = [] then ta
  else
    replaceSelection ta
      (List.intercalate selected (splitOnSub (chars "{selection}") template)) true

/-- `insertHorizontalRule(textarea)`: insert `"---"`, padded with blank
lines so it is not glued to adjacent non-blank text, with exactly one
trailing newline at buffer end; the caret lands after the insertion. -/
def insertHorizontalRule (ta : TA) : TA :=
  let start := ta.selectionStart
  let e := ta.selectionEnd
  let before := ta.value.take start
  let after := ta.value.drop e
  let insertion := chars "---"
  let insertion :=
    if !(chars "\n\n").isSuffixOf before && before.length > 0 then
      (if (chars "\n").isSuffixOf before then chars "\n" else chars "\n\n") ++
        insertion
    else insertion
  let insertion :=
    if !(chars "\n\n").isPrefixOf after && after.length > 0 then
      insertion ++
        (if (chars "\n").isPrefixOf after then chars "\n" else chars "\n\n")
    else if after.length = 0 then insertion ++ chars "\n"
    else insertion
  replaceSelection ta insertion false

/-- `cols` clamped by `Math.max(2, Math.min(6, cols | 0))`. -/
def tableCols (cols : Int) : Nat := (max 2 (min 6 (toInt32 cols))).toNat

/-- `rows` clamped by `Math.max(2, Math.min(10, rows | 0))`. -/
def tableRows (rows : Int) : Nat := (max 2 (min 10 (toInt32 rows))).toNat

/-- One pipe-delimited table line, `'| ' + cells.join(' | ') + ' |'`. -/
def tableLine (cells : List Str) : Str :=
  chars "| " ++ List.intercalate (chars " | ") cells ++ chars " |"

/-- The lines of the generated table block: a header line, a `"---"`
separator line, and `r` body lines of `"Cell {row}.{col}"` cells, each
line holding `c` cells. -/
def tableBlockLines (c r : Nat) : List Str :=
  let headers := (List.range c).map (fun i => chars "Header " ++ natStr (i + 1))
  let aligns := List.replicate c (chars "---")
  let body := (List.range r).map (fun rr =>
    (List.range c).map (fun cc =>
      chars "Cell " ++ natStr (rr + 1) ++ chars "." ++ natStr (cc + 1)))
  tableLine headers :: tableLine aligns :: body.map tableLine

/-- `insertTable(textarea, cols, rows)`: clamp the dimensions, build the
placeholder block and replace the selection with it, keeping it
selected. -/
def insertTable (ta : TA) (cols rows : Int) : TA :=
  replaceSelection ta
    (List.intercalate ['\n'] (tableBlockLines (tableCols cols) (tableRows rows)))
    true

/-- Test of `/^https?:\/\/.+/i` against the trimmed selection: a
case-insensitive `http://` or `https://` scheme followed by at least one
character that is not a line terminator. -/
def testHttpUrl (s : Str) : Bool :=
  let ls := s.map Char.toLower
  if (chars "https://").isPrefixOf ls then
    match ls.drop 8 with
    | c :: _ => c ≠ '\n' && c ≠ '\r'
    | [] => false
  else if (chars "http://").isPrefixOf ls then
    match ls.drop 7 with
    | c :: _ => c ≠ '\n' && c ≠ '\r'
    | [] => false
  else false

/-- `insertLink(textarea, onPrompt)`, with the prompt's callback argument
made explicit: `resp` is the value the prompt capability passes to the
callback (`none` models the `null` of cancellation).  When the selection
is a URL the prompt asks for link text, otherwise for a URL (ignored when
its trimmed value is empty). -/
def insertLink (ta : TA) (resp : Option Str) : TA :=
  let start := ta.selectionStart
  let e := ta.selectionEnd
  let selectedText := (ta.value.take e).drop start
  let isUrl := testHttpUrl (trimStr selectedText)
  if isUrl then
    match resp with
    | none => ta
    | some text =>
      let markdown := '[' :: text ++ ']' :: '(' :: trimStr selectedText ++ [')']
      let beforeText := ta.value.take start
      let afterText := ta.value.drop e
      { value := beforeText ++ markdown ++ afterText
        selectionStart := start
        selectionEnd := start + markdown.length }
  else
    let linkText := if selectedText = [] then chars "link text" else selectedText
    match resp with
    | none => ta
    | some url =>
      if trimStr url ≠ [] then
        let markdown := '[' :: linkText ++ ']' :: '(' :: trimStr url ++ [')']
        let beforeText := ta.value.take start
        let afterText := ta.value.drop e
        let newValue := beforeText ++ markdown ++ afterText
        if selectedText = [] then
          { value := newValue
            selectionStart := start + 1
            selectionEnd := start + 1 + linkText.length }
        else
          { value := newValue
            selectionStart := start
            selectionEnd := start + markdown.length }
      else ta

/-- `insertHeading(textarea, level)`:
`prefixLines(textarea, '#'.repeat(level) + ' ', false)`. -/
def insertHeading (ta : TA) (level : Nat) : TA :=
  prefixLines ta (List.replicate level '#' ++ [' ']) false

/-- The heading level the toolbar's heading button passes to the engine,
`Math.max(1, Math.min(6, (settings?.headingLevel | 0) || 3))`
(from `content/toolbar.js`). -/
def headingDefaultLevel (headingLevel : Int) : Nat :=
  (max 1 (min 6 (jsOrInt (toInt32 headingLevel) 3))).toNat

/-- `wrapText(textarea, prefix, suffix, placeholder)`: wrap the selection
in markers, toggle symmetric markers off when they already surround the
selection, or insert `prefix + placeholder + suffix` at a caret. -/
def wrapText (ta : TA) (pre suf placeholder : Str) : TA :=
  let start := ta.selectionStart
  let e := ta.selectionEnd
  let selectedText := (ta.value.take e).drop start
  let beforeText := ta.value.take start
  let afterText := ta.value.drop e
  if selectedText ≠ [] then
    let alreadyWrapped := pre.isSuffixOf beforeText && suf.isPrefixOf afterText
    if alreadyWrapped && pre == suf then
      let unwrapped := jsSliceNegEnd beforeText pre.length ++ selectedText ++
        afterText.drop suf.length
      { value := unwrapped
        selectionStart := start - pre.length
        selectionEnd := e - pre.length }
    else
      { value := beforeText ++ pre ++ selectedText ++ suf ++ afterText
        selectionStart := start + pre.length
        selectionEnd := e + pre.length }
  else
    { value := beforeText ++ pre ++ placeholder ++ suf ++ afterText
      selectionStart := start + pre.length
      selectionEnd := start + pre.length + placeholder.length }

/-- The `bold` entry of the returned API. -/
def bold (ta : TA) : TA := wrapText ta (chars "**") (chars "**") (chars "bold text")

/-- The `italic` entry of the returned API. -/
def italic (ta : TA) : TA := wrapText ta (chars "*") (chars "*") (chars "italic text")

/-- The `strikethrough` entry of the returned API. -/
def strikethrough (ta : TA) : TA :=
  wrapText ta (chars "~~") (chars "~~") (chars "strikethrough")

/-- The `inlineCode` entry of the returned API. -/
def inlineCode (ta : TA) : TA := wrapText ta (chars "`") (chars "`") (chars "code")

/-- The `codeBlock` entry of the returned API. -/
def codeBlock (ta : TA) : TA :=
  wrapText ta (chars "```\n") (chars "\n```") (chars "code block")

/-- The `spoiler` entry of the returned API. -/
def spoiler (ta : TA) : TA := wrapText ta (chars ">!") (chars "!<") (chars "spoiler")

/-- The `quote` entry of the returned API. -/
def quote (ta : TA) : TA := prefixLines ta (chars "> ") true

/-- The `bulletList` entry of the returned API. -/
def bulletList (ta : TA) : TA := prefixLines ta (chars "- ") true

/-- The `numberedList` entry of the returned API. -/
def numberedList (ta : TA) : TA := insertNumberedList ta

/-- The `heading` entry of the returned API. -/
def heading (ta : TA) (level : Nat) : TA := insertHeading ta level

/-- The toolbar's heading button action on a plain click (from
`content/toolbar.js`): the configured level is coerced, defaulted and
clamped by `headingDefaultLevel`, then passed to the engine. -/
def headingButtonAction (ta : TA) (headingLevel : Int) : TA :=
  heading ta (headingDefaultLevel headingLevel)

/-! ## Helper lemmas about splicing a buffer around a selection -/

/-- Extracting the selection of a buffer built as `b ++ x ++ a` with the
selection exactly over `x` returns `x`. -/
theorem take_drop_mid (b x a : Str) :
    ((b ++ x ++ a).take (b.length + x.length)).drop b.length = x := by
  rw [List.take_left' (by simp), List.drop_left' rfl]

/-- A buffer splits into the text before, inside and after a selection. -/
theorem take_sel_drop (l : Str) (s e : Nat) (hse : s ≤ e) (he : e ≤ l.length) :
    l.take s ++ ((l.take e).drop s) ++ l.drop e = l := by
  have h2 : s - (l.take e).length = 0 := by
    simp only [List.length_take]; omega
  have h1 : (l.take e).drop s ++ l.drop e = l.drop s := by
    conv_rhs => rw [← List.take_append_drop e l]
    rw [List.drop_append_eq_append_drop, h2, List.drop_zero]
  rw [List.append_assoc, h1, List.take_append_drop]

/-- `replaceSelection` on a buffer presented as context plus selection. -/
theorem replaceSelection_ctx (b x a r : Str) (selB : Bool) :
    replaceSelection ⟨b ++ x ++ a, b.length, b.length + x.length⟩ r selB =
      if selB then (⟨b ++ r ++ a, b.length, b.length + r.length⟩ : TA)
      else ⟨b ++ r ++ a, b.length + r.length, b.length + r.length⟩ := by
  have htake : (b ++ (x ++ a)).take b.length = b := List.take_left' rfl
  have hdrop : (b ++ (x ++ a)).drop (b.length + x.length) = a := by
    rw [← List.append_assoc]; exact List.drop_left' (by simp)
  simp only [replaceSelection, List.append_assoc, htake, hdrop]

/-! ## C4: numbered-list round trip on a three-line selection -/

/-- Claim C4: on the buffer `"a\nb\nc"` with all three lines selected,
`insertNumberedList` yields `"1. a\n2. b\n3. c"`, and applying it again to
the returned selection restores `"a\nb\nc"`. -/
theorem numberedList_roundtrip_abc :
    (numberedList ⟨chars "a\nb\nc", 0, 5⟩).value = chars "1. a\n2. b\n3. c" ∧
    (numberedList (numberedList ⟨chars "a\nb\nc", 0, 5⟩)).value = chars "a\nb\nc" := by
  decide

/-! ## C7: horizontal rule at the end of a buffer -/

/-- Claim C7: with buffer `"abc"` and a caret at offset 3,
`insertHorizontalRule` produces exactly `"abc\n\n---\n"` (two newlines
before the rule, one after), with the caret after the insertion. -/
theorem horizontalRule_at_end :
    insertHorizontalRule ⟨chars "abc", 3, 3⟩ = ⟨chars "abc\n\n---\n", 9, 9⟩ := by
  decide

/-! ## C6: heading level clamping -/

/-- Claim C6: for every integral configured level, the toolbar's heading
action clamps it into `[1, 6]` (with fallback 3 for the falsy 0) and
prefixes the selected lines with that many `'#'` characters plus a space,
non-toggleable; in particular levels 0 and 10 yield 3 and 6. -/
theorem heading_level_clamped (lvl : Int) (ta : TA) :
    1 ≤ headingDefaultLevel lvl ∧ headingDefaultLevel lvl ≤ 6 ∧
    headingButtonAction ta lvl =
      prefixLines ta (List.replicate (headingDefaultLevel lvl) '#' ++ [' ']) false ∧
    headingDefaultLevel 0 = 3 ∧ headingDefaultLevel 10 = 6 := by
  refine ⟨?_, ?_, rfl, by decide, by decide⟩ <;>
  · unfold headingDefaultLevel
    generalize jsOrInt (toInt32 lvl) 3 = x
    omega

/-! ## C5: clear-formatting example -/

/-- Claim C5: with any context around it, clearing the selected text
`"**bold** and `code` and [x](http://e)"` replaces the selection with
exactly `"bold and code and x"` (the passes running in their documented
order) and leaves the surrounding text unchanged. -/
theorem clearFormatting_example (b a : Str) :
    clearFormatting ⟨b ++ chars "**bold** and `code` and [x](http://e)" ++ a,
        b.length, b.length + (chars "**bold** and `code` and [x](http://e)").length⟩ =
      ⟨b ++ chars "bold and code and x" ++ a,
        b.length, b.length + (chars "bold and code and x").length⟩ := by
  have hsel := take_drop_mid b (chars "**bold** and `code` and [x](http://e)") a
  have hY : clearPasses (chars "**bold** and `code` and [x](http://e)") =
      chars "bold and code and x" := by decide
  simp only [clearFormatting, hsel, hY]
  rw [if_neg (by decide)]
  exact (replaceSelection_ctx b _ a _ true).trans (if_pos rfl)

/-! ## C9: prompt cancellation leaves the textarea untouched -/

/-- Claim C9: `insertLink` leaves buffer and selection completely
unchanged when the prompt callback receives `null`, and likewise in the
URL-prompt branch when the entered URL trims to the empty string. -/
theorem insertLink_cancel (ta : TA) :
    insertLink ta none = ta ∧
    ∀ url : Str, testHttpUrl (trimStr (selText ta)) = false → trimStr url = [] →
      insertLink ta (some url) = ta := by
  constructor
  · simp only [insertLink]
    split <;> rfl
  · intro url hurl htrim
    simp only [selText] at hurl
    simp only [insertLink, hurl, htrim]
    simp

/-- Witness for C9 at a concrete input: the selection `"abc"` is not a
URL, `" "` trims to empty, and both cancellation paths leave the state
unchanged. -/
theorem insertLink_cancel_witness :
    testHttpUrl (trimStr (selText ⟨chars "abc", 0, 3⟩)) = false ∧
    trimStr (chars " ") = [] ∧
    insertLink ⟨chars "abc", 0, 3⟩ none = ⟨chars "abc", 0, 3⟩ ∧
    insertLink ⟨chars "abc", 0, 3⟩ (some (chars " ")) = ⟨chars "abc", 0, 3⟩ :=
  ⟨by decide, by decide, (insertLink_cancel _).1,
    (insertLink_cancel _).2 _ (by decide) (by decide)⟩

/-! ## Branch lemmas for `wrapText` -/

/-- `wrapText` on a non-empty selection whose toggle-off test fails wraps
the selection in the markers. -/
theorem wrapText_wrap_branch (v : Str) (s e : Nat) (pre suf ph : Str)
    (hne : (v.take e).drop s ≠ [])
    (hw : (pre.isSuffixOf (v.take s) && suf.isPrefixOf (v.drop e) && pre == suf) = false) :
    wrapText ⟨v, s, e⟩ pre suf ph =
      ⟨v.take s ++ pre ++ (v.take e).drop s ++ suf ++ v.drop e,
        s + pre.length, e + pre.length⟩ := by
  simp only [wrapText]
  rw [if_pos hne, if_neg (by simp [hw])]

/-- `wrapText` on a non-empty selection whose toggle-off test succeeds
removes the markers. -/
theorem wrapText_unwrap_branch (v : Str) (s e : Nat) (pre suf ph : Str)
    (hne : (v.take e).drop s ≠ [])
    (hw : (pre.isSuffixOf (v.take s) && suf.isPrefixOf (v.drop e) && pre == suf) = true) :
    wrapText ⟨v, s, e⟩ pre suf ph =
      ⟨jsSliceNegEnd (v.take s) pre.length ++ (v.take e).drop s ++
          (v.drop e).drop suf.length,
        s - pre.length, e - pre.length⟩ := by
  simp only [wrapText]
  rw [if_pos hne, if_pos (by simp [hw])]

/-! ## C2: wrap/unwrap round trip for symmetric markers -/

/-- Claim C2: for a symmetric marker `m`, a non-empty selected text and
adjacent text on both sides not already equal to `m`, wrapping and then
wrapping again (which toggles off) restores the original buffer and
selection exactly. -/
theorem wrap_unwrap_roundtrip (ta : TA) (m ph ph2 : Str)
    (hse : ta.selectionStart ≤ ta.selectionEnd)
    (he : ta.selectionEnd ≤ ta.value.length)
    (hne : selText ta ≠ [])
    (hpre : m.isSuffixOf (ta.value.take ta.selectionStart) = false)
    (hsuf : m.isPrefixOf (ta.value.drop ta.selectionEnd) = false) :
    wrapText (wrapText ta m m ph) m m ph2 = ta := by
  obtain ⟨v, s, e⟩ := ta
  simp only at hse he
  simp only [selText] at hne hpre hsuf
  have hm : m ≠ [] := by
    intro h; subst h; simp at hpre
  have hBlen : (v.take s).length = s := by
    simp [List.length_take]; omega
  have hXlen : ((v.take e).drop s).length = e - s := by
    simp [List.length_take, List.length_drop]; omega
  have h1 : wrapText ⟨v, s, e⟩ m m ph =
      ⟨v.take s ++ m ++ (v.take e).drop s ++ m ++ v.drop e,
        s + m.length, e + m.length⟩ :=
    wrapText_wrap_branch v s e m m ph hne (by rw [hpre]; simp)
  rw [h1]
  have hval : v.take s ++ m ++ (v.take e).drop s ++ m ++ v.drop e =
      ((v.take s ++ m) ++ (v.take e).drop s) ++ (m ++ v.drop e) := by
    simp [List.append_assoc]
  have hbefore1 : (v.take s ++ m ++ (v.take e).drop s ++ m ++ v.drop e).take
      (s + m.length) = v.take s ++ m := by
    rw [hval, List.append_assoc]
    exact List.take_left' (by simp [hBlen])
  have hsel1 : ((v.take s ++ m ++ (v.take e).drop s ++ m ++ v.drop e).take
      (e + m.length)).drop (s + m.length) = (v.take e).drop s := by
    rw [hval, List.take_left' (by simp [hBlen, hXlen]; omega)]
    exact List.drop_left' (by simp [hBlen])
  have hafter1 : (v.take s ++ m ++ (v.take e).drop s ++ m ++ v.drop e).drop
      (e + m.length) = m ++ v.drop e := by
    rw [hval]
    exact List.drop_left' (by simp [hBlen, hXlen]; omega)
  have h2 : wrapText ⟨v.take s ++ m ++ (v.take e).drop s ++ m ++ v.drop e,
      s + m.length, e + m.length⟩ m m ph2 =
      ⟨jsSliceNegEnd (v.take s ++ m) m.length ++ (v.take e).drop s ++
          (m ++ v.drop e).drop m.length,
        s + m.length - m.length, e + m.length - m.length⟩ := by
    rw [wrapText_unwrap_branch _ _ _ _ _ _ (by rw [hsel1]; exact hne)
      (by rw [hbefore1, hafter1]; simp), hbefore1, hafter1, hsel1]
  rw [h2]
  have h3 : jsSliceNegEnd (v.take s ++ m) m.length = v.take s := by
    unfold jsSliceNegEnd
    rw [if_neg (by simpa using hm),
      show (v.take s ++ m).length - m.length = (v.take s).length by simp]
    exact List.take_left _ _
  rw [h3, List.drop_left' rfl]
  have h4 : v.take s ++ (v.take e).drop s ++ v.drop e = v :=
    take_sel_drop v s e hse he
  simp [h4, Nat.add_sub_cancel]

/-- Witness for C2: wrapping then unwrapping `"ell"` inside `"hello"`
with the bold marker restores the original state. -/
theorem wrap_unwrap_roundtrip_witness :
    wrapText (wrapText ⟨chars "hello", 1, 4⟩ (chars "**") (chars "**") (chars "x"))
        (chars "**") (chars "**") (chars "y") = ⟨chars "hello", 1, 4⟩ :=
  wrap_unwrap_roundtrip ⟨chars "hello", 1, 4⟩ (chars "**") (chars "x") (chars "y")
    (by decide) (by decide) (by decide) (by decide) (by decide)

/-! ## C10: line-block operations only rewrite the line block -/

/-- The line-block start never lies beyond the selection start. -/
theorem lineStartOf_le_start (ta : TA) : lineStartOf ta ≤ ta.selectionStart := by
  unfold lineStartOf jsLastIndexOf
  have hlen : (ta.value.take ta.selectionStart).length ≤ ta.selectionStart := by
    simp [List.length_take]
  split
  · omega
  · omega

/-- Splicing `ns` between the prefix of length `ls` and the suffix from
`le` keeps that prefix and suffix intact. -/
theorem frame_core (v : Str) (ls le : Nat) (hls : ls ≤ v.length) (ns : Str) :
    (v.take ls ++ ns ++ v.drop le).take ls = v.take ls ∧
    (v.take ls ++ ns ++ v.drop le).drop (ls + ns.length) = v.drop le := by
  constructor
  · rw [List.append_assoc]
    exact List.take_left' (by simp [List.length_take]; omega)
  · exact List.drop_left' (by simp [List.length_take]; omega)

/-- The rewritten line block of `insertNumberedList` on a non-empty
selection (toggle-off stripping or fresh numbering). -/
def numberedBlock (ta : TA) : Str :=
  List.intercalate ['\n']
    (if (blockLines ta).all (fun line => testNumbered (trimStr line)) then
      (blockLines ta).map stripNumbered
    else numberLines 1 (blockLines ta))

/-- On a non-empty selection, `insertNumberedList` splices the rewritten
block between the untouched prefix and suffix of the buffer. -/
theorem insertNumberedList_nonempty (ta : TA) (hne : selText ta ≠ []) :
    insertNumberedList ta =
      ⟨ta.value.take (lineStartOf ta) ++ numberedBlock ta ++
          ta.value.drop (lineEndOf ta),
        lineStartOf ta, lineStartOf ta + (numberedBlock ta).length⟩ := by
  simp only [selText] at hne
  simp only [insertNumberedList, numberedBlock]
  rw [if_neg hne]

/-- Claim C10: `prefixLines` (any prefix, any toggle mode) and
`insertNumberedList` (non-empty selection) leave every character before
`lineStart` and from `lineEnd` onward unchanged: the prefix of the result
up to `lineStart` and its suffix after the new selection end equal the
original buffer's prefix and suffix. -/
theorem lineBlock_frame (ta : TA) (p : Str) (tog : Bool)
    (hse : ta.selectionStart ≤ ta.selectionEnd)
    (he : ta.selectionEnd ≤ ta.value.length) :
    ((prefixLines ta p tog).value.take (lineStartOf ta) =
        ta.value.take (lineStartOf ta) ∧
      (prefixLines ta p tog).value.drop ((prefixLines ta p tog).selectionEnd) =
        ta.value.drop (lineEndOf ta)) ∧
    (selText ta ≠ [] →
      ((insertNumberedList ta).value.take (lineStartOf ta) =
          ta.value.take (lineStartOf ta) ∧
        (insertNumberedList ta).value.drop ((insertNumberedList ta).selectionEnd) =
          ta.value.drop (lineEndOf ta))) := by
  have hls : lineStartOf ta ≤ ta.value.length :=
    le_trans (lineStartOf_le_start ta) (le_trans hse he)
  constructor
  · exact frame_core ta.value (lineStartOf ta) (lineEndOf ta) hls _
  · intro hne
    rw [insertNumberedList_nonempty ta hne]
    exact frame_core ta.value (lineStartOf ta) (lineEndOf ta) hls _

/-- Witness for C10 on a concrete two-line buffer with a mid-buffer
selection (the non-empty-selection hypothesis discharged). -/
theorem lineBlock_frame_witness :
    ((prefixLines ⟨chars "u\nv\nw", 2, 3⟩ (chars "> ") true).value.take
        (lineStartOf ⟨chars "u\nv\nw", 2, 3⟩) =
        (chars "u\nv\nw").take (lineStartOf ⟨chars "u\nv\nw", 2, 3⟩) ∧
      (prefixLines ⟨chars "u\nv\nw", 2, 3⟩ (chars "> ") true).value.drop
          ((prefixLines ⟨chars "u\nv\nw", 2, 3⟩ (chars "> ") true).selectionEnd) =
        (chars "u\nv\nw").drop (lineEndOf ⟨chars "u\nv\nw", 2, 3⟩)) ∧
    ((insertNumberedList ⟨chars "u\nv\nw", 2, 3⟩).value.take
        (lineStartOf ⟨chars "u\nv\nw", 2, 3⟩) =
        (chars "u\nv\nw").take (lineStartOf ⟨chars "u\nv\nw", 2, 3⟩) ∧
      (insertNumberedList ⟨chars "u\nv\nw", 2, 3⟩).value.drop
          ((insertNumberedList ⟨chars "u\nv\nw", 2, 3⟩).selectionEnd) =
        (chars "u\nv\nw").drop (lineEndOf ⟨chars "u\nv\nw", 2, 3⟩)) :=
  ⟨(lineBlock_frame ⟨chars "u\nv\nw", 2, 3⟩ (chars "> ") true
      (by decide) (by decide)).1,
    (lineBlock_frame ⟨chars "u\nv\nw", 2, 3⟩ (chars "> ") true
      (by decide) (by decide)).2 (by decide)⟩

/-! ## C8: table block shape -/

/-- Decimal digit characters are never a newline. -/
theorem digitChar_ne_newline (d : Nat) (hd : d < 10) : digitChar d ≠ '\n' := by
  interval_cases d <;> decide

/-- Rendered numbers contain no newline. -/
theorem natStrAux_ne_newline (fuel : Nat) : ∀ n, '\n' ∉ natStrAux fuel n := by
  induction fuel with
  | zero => intro n; simp [natStrAux]
  | succ f ih =>
    intro n
    unfold natStrAux
    split
    · simp only [List.mem_singleton]
      exact fun h => digitChar_ne_newline n (by omega) h.symm
    · simp only [List.mem_append, List.mem_singleton]
      rintro (h | h)
      · exact ih _ h
      · exact digitChar_ne_newline _ (Nat.mod_lt _ (by norm_num)) h.symm

/-- `natStr` contains no newline. -/
theorem natStr_ne_newline (n : Nat) : '\n' ∉ natStr n := natStrAux_ne_newline _ _

/-- Members of an interspersed list are members or the separator. -/
theorem mem_of_mem_intersperse {sep : Str} :
    ∀ {ls : List Str} {x : Str}, x ∈ ls.intersperse sep → x ∈ ls ∨ x = sep := by
  intro ls
  induction ls with
  | nil => simp
  | cons a tl ih =>
    cases tl with
    | nil => simp
    | cons b tl2 =>
      intro x hx
      rw [List.intersperse_cons₂] at hx
      simp only [List.mem_cons] at hx
      rcases hx with rfl | rfl | hx
      · simp
      · right; rfl
      · rcases ih hx with h | h
        · exact Or.inl (by simp [h])
        · exact Or.inr h

/-- A character avoided by the separator and every element is not in the
intercalation. -/
theorem notMem_intercalate {c : Char} {sep : Str} {ls : List Str}
    (hsep : c ∉ sep) (hls : ∀ x ∈ ls, c ∉ x) : c ∉ List.intercalate sep ls := by
  intro hmem
  rw [List.intercalate] at hmem
  obtain ⟨l, hl, hcl⟩ := List.mem_flatten.1 hmem
  rcases mem_of_mem_intersperse hl with h | rfl
  · exact hls l h hcl
  · exact hsep hcl

/-- A table line built from newline-free cells is newline-free. -/
theorem tableLine_no_newline (cells : List Str) (h : ∀ x ∈ cells, '\n' ∉ x) :
    '\n' ∉ tableLine cells := by
  unfold tableLine
  simp only [List.mem_append]
  rintro ((h1 | h2) | h3)
  · exact (by decide : '\n' ∉ chars "| ") h1
  · exact notMem_intercalate (by decide) h h2
  · exact (by decide : '\n' ∉ chars " |") h3

/-- The table block has exactly `2 + r` lines. -/
theorem tableBlockLines_length (c r : Nat) :
    (tableBlockLines c r).length = 2 + r := by
  simp [tableBlockLines]
  omega

/-- Every line of the table block is a newline-free pipe-delimited line
of exactly `c` cells. -/
theorem tableBlockLines_shape (c r : Nat) :
    ∀ line ∈ tableBlockLines c r,
      '\n' ∉ line ∧ ∃ cells, cells.length = c ∧ line = tableLine cells := by
  intro line hline
  unfold tableBlockLines at hline
  simp only [List.mem_cons, List.mem_map] at hline
  rcases hline with rfl | rfl | ⟨row, hrow, rfl⟩
  · refine ⟨?_, _, by simp, rfl⟩
    apply tableLine_no_newline
    intro x hx
    simp only [List.mem_map, List.mem_range] at hx
    obtain ⟨i, _, rfl⟩ := hx
    simp only [List.mem_append]
    rintro (h | h)
    · exact (by decide : '\n' ∉ chars "Header ") h
    · exact natStr_ne_newline _ h
  · refine ⟨?_, _, by simp, rfl⟩
    apply tableLine_no_newline
    intro x hx
    rw [List.eq_of_mem_replicate hx]
    decide
  · simp only [List.mem_map, List.mem_range] at hrow
    obtain ⟨rr, _, rfl⟩ := hrow
    refine ⟨?_, _, by simp, rfl⟩
    apply tableLine_no_newline
    intro x hx
    simp only [List.mem_map, List.mem_range] at hx
    obtain ⟨cc, _, rfl⟩ := hx
    simp only [List.mem_append]
    rintro (((h | h) | h) | h)
    · exact (by decide : '\n' ∉ chars "Cell ") h
    · exact natStr_ne_newline _ h
    · exact (by decide : '\n' ∉ chars ".") h
    · exact natStr_ne_newline _ h

/-- Claim C8: for every `cols`/`rows` argument, `insertTable` clamps the
dimensions into `[2,6]` and `[2,10]`, and replaces the selection with a
block of exactly `2 + rows` newline-free pipe-delimited lines (header,
separator, body) of exactly `cols` cells each; with the defaults
`cols = 2, rows = 2` this is 4 lines. -/
theorem insertTable_shape (cols rows : Int) :
    (2 ≤ tableCols cols ∧ tableCols cols ≤ 6 ∧
      2 ≤ tableRows rows ∧ tableRows rows ≤ 10) ∧
    (tableBlockLines (tableCols cols) (tableRows rows)).length =
      2 + tableRows rows ∧
    (∀ line ∈ tableBlockLines (tableCols cols) (tableRows rows),
      '\n' ∉ line ∧
        ∃ cells, cells.length = tableCols cols ∧ line = tableLine cells) ∧
    (∀ ta, insertTable ta cols rows =
      replaceSelection ta
        (List.intercalate ['\n']
          (tableBlockLines (tableCols cols) (tableRows rows))) true) ∧
    (tableBlockLines (tableCols 2) (tableRows 2)).length = 4 := by
  refine ⟨⟨?_, ?_, ?_, ?_⟩, tableBlockLines_length _ _, tableBlockLines_shape _ _,
    fun _ => rfl, by decide⟩
  · unfold tableCols
    have h := le_max_left (2 : Int) (min 6 (toInt32 cols))
    omega
  · unfold tableCols
    have h := max_le (show (2 : Int) ≤ 6 by norm_num)
      (min_le_left (6 : Int) (toInt32 cols))
    omega
  · unfold tableRows
    have h := le_max_left (2 : Int) (min 10 (toInt32 rows))
    omega
  · unfold tableRows
    have h := max_le (show (2 : Int) ≤ 10 by norm_num)
      (min_le_left (10 : Int) (toInt32 rows))
    omega

/-! ## C3: selection bounds invariant -/

/-- `replaceSelection` keeps the selection within the new buffer. -/
theorem replaceSelection_bounds (ta : TA) (h : boundsOk ta) (repl : Str)
    (b : Bool) : boundsOk (replaceSelection ta repl b) := by
  obtain ⟨hse, he⟩ := h
  simp only [replaceSelection, boundsOk]
  split
  · simp only [List.length_append, List.length_take, List.length_drop]
    omega
  · simp only [List.length_append, List.length_take, List.length_drop]
    omega

/-- `wrapText` keeps the selection within the new buffer for any
non-empty opening marker (every engine wrap operation uses one). -/
theorem wrapText_bounds (ta : TA) (h : boundsOk ta) (pre suf ph : Str)
    (hp : pre ≠ []) : boundsOk (wrapText ta pre suf ph) := by
  obtain ⟨v, s, e⟩ := ta
  replace h : s ≤ e ∧ e ≤ v.length := h
  obtain ⟨hse, he⟩ := h
  have hp0 : ¬ pre.length = 0 := by simpa using hp
  simp only [wrapText, boundsOk]
  split
  · split
    · next hw =>
      simp only [Bool.and_eq_true, beq_iff_eq] at hw
      obtain ⟨⟨h1, h2⟩, h3⟩ := hw
      rw [List.isSuffixOf_iff_suffix] at h1
      rw [List.isPrefixOf_iff_prefix] at h2
      have h1l := h1.length_le
      have h2l := h2.length_le
      simp only [List.length_take, List.length_drop] at h1l h2l
      subst h3
      simp only [jsSliceNegEnd, if_neg hp0, List.length_append, List.length_take,
        List.length_drop]
      omega
    · simp only [List.length_append, List.length_take, List.length_drop]
      omega
  · simp only [List.length_append, List.length_take, List.length_drop]
    omega

/-- `prefixLines` keeps the selection within the new buffer. -/
theorem prefixLines_bounds (ta : TA) (h : boundsOk ta) (p : Str) (tog : Bool) :
    boundsOk (prefixLines ta p tog) := by
  have hls : lineStartOf ta ≤ ta.value.length :=
    le_trans (lineStartOf_le_start ta) (le_trans h.1 h.2)
  simp only [prefixLines, boundsOk]
  constructor
  · omega
  · simp only [List.length_append, List.length_take]
    omega

/-- `insertNumberedList` keeps the selection within the new buffer. -/
theorem insertNumberedList_bounds (ta : TA) (h : boundsOk ta) :
    boundsOk (insertNumberedList ta) := by
  have hls : lineStartOf ta ≤ ta.value.length :=
    le_trans (lineStartOf_le_start ta) (le_trans h.1 h.2)
  obtain ⟨hse, he⟩ := h
  have h7 : (chars "1. item").length = 7 := by decide
  simp only [insertNumberedList, boundsOk]
  split
  · simp only [List.length_append, List.length_take, List.length_drop, h7]
    omega
  · simp only [List.length_append, List.length_take]
    omega

/-- `insertLink` keeps the selection within the new buffer for every
prompt response. -/
theorem insertLink_bounds (ta : TA) (h : boundsOk ta) (resp : Option Str) :
    boundsOk (insertLink ta resp) := by
  obtain ⟨v, s, e⟩ := ta
  replace h : s ≤ e ∧ e ≤ v.length := h
  obtain ⟨hse, he⟩ := h
  simp only [insertLink, boundsOk]
  split
  · split
    · exact ⟨hse, he⟩
    · simp only [List.length_append, List.length_take, List.length_drop,
        List.length_cons]
      omega
  · split
    · exact ⟨hse, he⟩
    · split
      · next hurl =>
        have hu : 0 < (trimStr _).length := List.length_pos.mpr hurl
        split
        · next hsel =>
          simp only [hsel, if_pos rfl] at *
          simp only [List.length_append, List.length_take, List.length_drop,
            List.length_cons]
          omega
        · simp only [List.length_append, List.length_take, List.length_drop,
            List.length_cons]
          omega
      · exact ⟨hse, he⟩

/-- Claim C3: every operation of the engine — the six wrap operations,
line prefixing (hence quote, bullet list and heading at every level),
numbered list, horizontal rule, table with any dimensions, clear
formatting, snippets with any template, and the link callback with any
prompt response — returns a selection with
`0 ≤ start' ≤ end' ≤ length(buffer')`. -/
theorem selection_bounds_invariant (ta : TA) (h : boundsOk ta) :
    boundsOk (bold ta) ∧ boundsOk (italic ta) ∧ boundsOk (strikethrough ta) ∧
    boundsOk (inlineCode ta) ∧ boundsOk (codeBlock ta) ∧ boundsOk (spoiler ta) ∧
    (∀ p tog, boundsOk (prefixLines ta p tog)) ∧
    (∀ level, boundsOk (heading ta level)) ∧
    boundsOk (numberedList ta) ∧
    boundsOk (insertHorizontalRule ta) ∧
    (∀ cols rows, boundsOk (insertTable ta cols rows)) ∧
    boundsOk (clearFormatting ta) ∧
    (∀ template, boundsOk (insertSnippet ta template)) ∧
    (∀ resp, boundsOk (insertLink ta resp)) := by
  refine ⟨wrapText_bounds ta h _ _ _ (by decide),
    wrapText_bounds ta h _ _ _ (by decide),
    wrapText_bounds ta h _ _ _ (by decide),
    wrapText_bounds ta h _ _ _ (by decide),
    wrapText_bounds ta h _ _ _ (by decide),
    wrapText_bounds ta h _ _ _ (by decide),
    fun p tog => prefixLines_bounds ta h p tog,
    fun level => prefixLines_bounds ta h _ false,
    insertNumberedList_bounds ta h,
    replaceSelection_bounds ta h _ false,
    fun cols rows => replaceSelection_bounds ta h _ true,
    ?_, ?_, fun resp => insertLink_bounds ta h resp⟩
  · simp only [clearFormatting]
    split
    · exact h
    · exact replaceSelection_bounds ta h _ true
  · intro template
    simp only [insertSnippet]
    split
    · exact h
    · exact replaceSelection_bounds ta h _ true

/-- Witness for C3 at a concrete well-formed textarea. -/
theorem selection_bounds_invariant_witness :
    boundsOk (bold ⟨chars "hi\nthere", 1, 4⟩) ∧
    boundsOk (insertHorizontalRule ⟨chars "hi\nthere", 1, 4⟩) ∧
    boundsOk (insertLink ⟨chars "hi\nthere", 1, 4⟩ (some (chars "http://a"))) :=
  ⟨(selection_bounds_invariant ⟨chars "hi\nthere", 1, 4⟩ (by decide)).1,
    (selection_bounds_invariant ⟨chars "hi\nthere", 1, 4⟩ (by decide)).2.2.2.2.2.2.2.2.2.1,
    (selection_bounds_invariant ⟨chars "hi\nthere", 1, 4⟩
      (by decide)).2.2.2.2.2.2.2.2.2.2.2.2.2 (some (chars "http://a"))⟩

/-! ## C1: the toggle-off decision of `prefixLines` -/

/-- Proof helper: the trailing whitespace that `trim` removes after
`trimStart` has been applied. -/
def wsTail (l : Str) : Str := ((trimStart l).reverse.takeWhile isWs).reverse

/-- `trimStart` splits into the fully trimmed text and its trailing
whitespace. -/
theorem trimStart_decomp (l : Str) : trimStart l = trimStr l ++ wsTail l := by
  unfold trimStr trimEnd wsTail
  rw [← List.reverse_append, List.takeWhile_append_dropWhile, List.reverse_reverse]

/-- Every character of the trailing-whitespace part is whitespace. -/
theorem wsTail_ws (l : Str) : ∀ c ∈ wsTail l, isWs c := by
  intro c hc
  rw [wsTail, List.mem_reverse] at hc
  exact List.mem_takeWhile_imp hc

/-- The last character of a trimmed string is never whitespace. -/
theorem trimStr_getLast?_not_ws (x : Str) :
    ∀ c, (trimStr x).getLast? = some c → isWs c = false := by
  intro c hc
  unfold trimStr trimEnd at hc
  rw [List.getLast?_reverse] at hc
  have h := List.head?_dropWhile_not isWs (trimStart x).reverse
  rw [hc] at h
  exact h

/-- The code's per-line toggle test (`line.trim().startsWith(p.trim())`)
agrees with testing against `line.trimStart()`: a trimmed prefix can
never reach into the trailing whitespace because its own last character
is not whitespace. -/
theorem trimStr_isPrefixOf_trimStart (p l : Str) :
    (trimStr p).isPrefixOf (trimStr l) = (trimStr p).isPrefixOf (trimStart l) := by
  rw [Bool.eq_iff_iff, List.isPrefixOf_iff_prefix, List.isPrefixOf_iff_prefix]
  constructor
  · intro h
    rw [trimStart_decomp l]
    exact h.trans (List.prefix_append _ _)
  · intro h
    rw [trimStart_decomp l] at h
    by_cases hlen : (trimStr p).length ≤ (trimStr l).length
    · rw [List.prefix_iff_eq_take] at h ⊢
      rw [List.take_append_eq_append_take, Nat.sub_eq_zero_of_le hlen,
        List.take_zero, List.append_nil] at h
      exact h
    · exfalso
      push_neg at hlen
      rw [List.prefix_iff_eq_take, List.take_append_eq_append_take,
        List.take_of_length_le (by omega)] at h
      have hL := congrArg List.length h
      simp only [List.length_append, List.length_take] at hL
      have hne : (wsTail l).take ((trimStr p).length - (trimStr l).length) ≠ [] := by
        intro h0
        have h00 := congrArg List.length h0
        simp only [List.length_take, List.length_nil] at h00
        omega
      have hmem := List.getLast_mem hne
      have hws : isWs (((wsTail l).take
          ((trimStr p).length - (trimStr l).length)).getLast hne) = true :=
        wsTail_ws l _ (List.mem_of_mem_take hmem)
      have hlast : (trimStr p).getLast? =
          some (((wsTail l).take
            ((trimStr p).length - (trimStr l).length)).getLast hne) := by
        conv_lhs => rw [h]
        rw [List.getLast?_append]
        have h1 := List.getLast_mem_getLast? hne
        rw [Option.mem_def] at h1
        rw [h1]
        rfl
      have := trimStr_getLast?_not_ws p _ hlast
      rw [hws] at this
      exact Bool.noConfusion this

/-- The removal condition as the spec words it (claim C1): every
non-blank line of the selected block already starts with `prefix.trim()`
after its leading whitespace; blank lines do not affect the decision. -/
def specNonBlankAllPrefixed (ta : TA) (p : Str) : Bool :=
  (blockLines ta).all (fun line =>
    (trimStr line).isEmpty || (trimStr p).isPrefixOf (trimStart line))

/-- Counterexample to claim C1 as stated: in the block `"> a" / "" / "> b"`
every non-blank line starts with `">"` after its leading whitespace, so
the claim demands the removal branch (which would yield `" a\n\n b"`), yet
`prefixLines` adds another prefix to every non-blank line — the blank
line makes the code's all-lines test fail. -/
theorem prefixLines_toggle_counterexample :
    specNonBlankAllPrefixed ⟨chars "> a\n\n> b", 0, 8⟩ (chars "> ") = true ∧
    (prefixLines ⟨chars "> a\n\n> b", 0, 8⟩ (chars "> ") true).value =
      chars "> > a\n\n> > b" ∧
    chars "> > a\n\n> > b" ≠ chars " a\n\n b" := by
  decide

/-- Claim C1 (amended): with `toggleable = true`, `prefixLines` takes the
removal branch precisely when **every** line of the selected block — blank
lines included — starts with `prefix.trim()` after its leading whitespace
(so for a non-empty trimmed prefix a blank line forces the add branch);
on removal each line's leading whitespace is re-emitted as that many
space characters followed by the line after stripping
`length(prefix.trim())` characters. -/
theorem prefixLines_toggle_amended (ta : TA) (p : Str) :
    ((∀ line ∈ blockLines ta, (trimStr p).isPrefixOf (trimStart line)) →
      prefixLines ta p true =
        ⟨ta.value.take (lineStartOf ta) ++
            List.intercalate ['\n'] ((blockLines ta).map (fun line =>
              List.replicate (line.length - (trimStart line).length) ' ' ++
                (trimStart line).drop (trimStr p).length)) ++
            ta.value.drop (lineEndOf ta),
          lineStartOf ta,
          lineStartOf ta +
            (List.intercalate ['\n'] ((blockLines ta).map (fun line =>
              List.replicate (line.length - (trimStart line).length) ' ' ++
                (trimStart line).drop (trimStr p).length))).length⟩) ∧
    ((¬ ∀ line ∈ blockLines ta, (trimStr p).isPrefixOf (trimStart line)) →
      prefixLines ta p true =
        ⟨ta.value.take (lineStartOf ta) ++
            List.intercalate ['\n'] ((blockLines ta).map (fun line =>
              if trimStr line = [] then line else p ++ line)) ++
            ta.value.drop (lineEndOf ta),
          lineStartOf ta,
          lineStartOf ta +
            (List.intercalate ['\n'] ((blockLines ta).map (fun line =>
              if trimStr line = [] then line else p ++ line))).length⟩) := by
  constructor
  · intro hall
    have hcode : (blockLines ta).all
        (fun line => (trimStr p).isPrefixOf (trimStr line)) = true := by
      rw [List.all_eq_true]
      intro line hline
      rw [trimStr_isPrefixOf_trimStart]
      exact hall line hline
    have hmap : (blockLines ta).map (fun line =>
        if (trimStr p).isPrefixOf (trimStart line) then
          List.replicate (line.length - (trimStart line).length) ' ' ++
            (trimStart line).drop (trimStr p).length
        else line) =
        (blockLines ta).map (fun line =>
          List.replicate (line.length - (trimStart line).length) ' ' ++
            (trimStart line).drop (trimStr p).length) := by
      apply List.map_congr_left
      intro line hline
      simp only [if_pos (hall line hline)]
    simp only [prefixLines, Bool.true_and]
    rw [hcode, if_pos rfl, hmap]
  · intro hnall
    have hcode : (blockLines ta).all
        (fun line => (trimStr p).isPrefixOf (trimStr line)) = false := by
      cases hall : (blockLines ta).all
          (fun line => (trimStr p).isPrefixOf (trimStr line)) with
      | false => rfl
      | true =>
        exfalso
        apply hnall
        intro line hline
        rw [← trimStr_isPrefixOf_trimStart]
        exact List.all_eq_true.mp hall line hline
    simp only [prefixLines, Bool.true_and]
    rw [hcode, if_neg (by simp)]

/-- Witness for the amended C1 at a concrete input: a fully quoted block
toggles off, stripping the quote marker from each line. -/
theorem prefixLines_toggle_amended_witness :
    prefixLines ⟨chars "> a\n> b", 0, 7⟩ (chars "> ") true =
      ⟨(chars "> a\n> b").take (lineStartOf ⟨chars "> a\n> b", 0, 7⟩) ++
          List.intercalate ['\n']
            ((blockLines ⟨chars "> a\n> b", 0, 7⟩).map (fun line =>
              List.replicate (line.length - (trimStart line).length) ' ' ++
                (trimStart line).drop (trimStr (chars "> ")).length)) ++
          (chars "> a\n> b").drop (lineEndOf ⟨chars "> a\n> b", 0, 7⟩),
        lineStartOf ⟨chars "> a\n> b", 0, 7⟩,
        lineStartOf ⟨chars "> a\n> b", 0, 7⟩ +
          (List.intercalate ['\n']
            ((blockLines ⟨chars "> a\n> b", 0, 7⟩).map (fun line =>
              List.replicate (line.length - (trimStart line).length) ' ' ++
                (trimStart line).drop (trimStr (chars "> ")).length))).length⟩ :=
  (prefixLines_toggle_amended ⟨chars "> a\n> b", 0, 7⟩ (chars "> ")).1 (by decide)

/-- Witness for C8 at a concrete line: the first line of the default
table block is newline-free and consists of `tableCols 0 = 2` cells. -/
theorem insertTable_shape_witness :
    '\n' ∉ chars "| Header 1 | Header 2 |" ∧
    ∃ cells, cells.length = tableCols 0 ∧
      chars "| Header 1 | Header 2 |" = tableLine cells :=
  (insertTable_shape 0 0).2.2.1 (chars "| Header 1 | Header 2 |") (by decide)
